import Mathlib

/-!
Verification of the deal-enrichment and prioritization pipeline
(src/services/pipedrive.ts, src/services/gmail.ts, src/lib/claude.ts,
the deal-analysis module, and the presenter in src/index.ts).

The TypeScript source is shallowly embedded: asynchronous fetches become
explicit oracle parameters returning `Except` values, JavaScript objects
become structures with `Option` fields where the TS type is nullable or
optional, and `Map` becomes an association list.  Machine arithmetic in the
source is plain JS number arithmetic on integers, embedded as `Int`.
-/

/-! ## Data model: Pipedrive records (src/services/pipedrive.ts) -/

/-- One element of `person.emails` as returned by the Pipedrive Persons API:
a string value plus a primary flag. -/
structure EmailEntry where
  value : String
  primary : Bool
deriving Repr, DecidableEq

/-- A person record as returned by `personsApi.getPersons({ deal_id })`:
all fields optional, matching the TS SDK types. -/
structure PersonRecord where
  id : Option Int
  name : Option String
  emails : Option (List EmailEntry)
deriving Repr, DecidableEq

/-- Structure `DealContact` of src/services/pipedrive.ts. -/
structure DealContact where
  id : Int
  name : String
  email : Option String
deriving Repr, DecidableEq

/-- The email-resolution expression inside `getDealContacts`:
`person.emails?.find((e) => e.primary)?.value ?? person.emails?.[0]?.value ?? null`. -/
def resolvePersonEmail (p : PersonRecord) : Option String :=
  match (p.emails.getD []).find? (fun e => e.primary) with
  | some e => some e.value
  | none => ((p.emails.getD []).head?).map (fun e => e.value)

/-- The per-person mapping inside `getDealContacts`:
`{ id: person.id ?? 0, name: person.name ?? "Unknown", email: ... }`. -/
def toDealContact (p : PersonRecord) : DealContact :=
  { id := p.id.getD 0
    name := p.name.getD "Unknown"
    email := resolvePersonEmail p }

/-- Function `getDealContacts` of src/services/pipedrive.ts, applied to the list of
person records the source API returned for the deal (`response.data ?? []`):
it maps each person record through `toDealContact`. -/
def getDealContacts (persons : List PersonRecord) : List DealContact :=
  persons.map toDealContact

/-- The property C7 asserts of `getDealContacts` output: each underlying
contact identity appears at most once. -/
def DedupedByIdentity (out : List DealContact) : Prop :=
  ∀ i : Int, out.countP (fun c => c.id == i) ≤ 1

/-- A concrete person record used to exhibit duplicate handling. -/
def pDup : PersonRecord :=
  { id := some 7, name := some "Ann", emails := some [⟨"ann@example.com", true⟩] }

/-! ## Data model: the prioritization result (src/lib/claude.ts) -/

/-- The `deal_health` enum of `DealPrioritySchema`. -/
inductive DealHealth
  | hot
  | warm
  | cold
  | at_risk
deriving Repr, DecidableEq

/-- The `urgency` enum of `DealPrioritySchema`. -/
inductive Urgency
  | immediate
  | this_week
  | next_week
  | no_rush
deriving Repr, DecidableEq

/-- One `deal_history` element of `DealPrioritySchema`. -/
structure DealHistoryEntry where
  date : String
  summary : String
deriving Repr, DecidableEq

/-- One element of the `deals` array of `DealPrioritySchema`. -/
structure DealPriorityEntry where
  deal_id : Int
  deal_title : String
  priority_rank : Int
  deal_health : DealHealth
  urgency : Urgency
  recommended_actions : List String
  reasoning : List String
  key_signals : List String
  deal_history : List DealHistoryEntry
deriving Repr, DecidableEq

/-- Type `DealPriority` — the zod-validated result type of `analyzeDeals`. -/
structure DealPriority where
  deals : List DealPriorityEntry
deriving Repr, DecidableEq

/-- Type `DealAnalysisResult` of the deal-analysis module. -/
structure DealAnalysisResult where
  dealsAnalyzed : Nat
  analysis : DealPriority
deriving Repr, DecidableEq

/-! ## Result Presenter (printDealAnalysis in src/index.ts) -/

/-- The `healthIcon` record of `printDealAnalysis`. -/
def healthIcon : DealHealth → String
  | .hot => "!!!"
  | .warm => "!! "
  | .cold => "!  "
  | .at_risk => "!!!"

/-- The `urgencyLabel` record of `printDealAnalysis`. -/
def urgencyLabel : Urgency → String
  | .immediate => "NOW"
  | .this_week => "THIS WEEK"
  | .next_week => "NEXT WEEK"
  | .no_rush => "LOW"

/-- The string form of a `deal_health` value (zod parses the enum from
these strings, and the presenter calls `.toUpperCase()` on them). -/
def healthName : DealHealth → String
  | .hot => "hot"
  | .warm => "warm"
  | .cold => "cold"
  | .at_risk => "at_risk"

/-- The comparator `(a, b) => a.priority_rank - b.priority_rank` passed to
`Array.prototype.sort`, as the boolean ordering it induces. -/
def rankLe (a b : DealPriorityEntry) : Bool :=
  a.priority_rank ≤ b.priority_rank

/-- The call `result.analysis.deals.sort((a, b) => a.priority_rank - b.priority_rank)`:
JS `Array.prototype.sort` is a stable in-place ascending sort under this
comparator, embedded as a stable merge sort. -/
def sortDealsByRank (ds : List DealPriorityEntry) : List DealPriorityEntry :=
  ds.mergeSort rankLe

/-- The lines `printDealAnalysis` logs for one deal (one list element per
`console.log` call; a leading `\n` in the template stays in the string). -/
def renderDeal (pipedriveUrl : String) (d : DealPriorityEntry) : List String :=
  ["#" ++ toString d.priority_rank ++ " [" ++ healthIcon d.deal_health ++ "] " ++ d.deal_title,
   "URL: " ++ pipedriveUrl ++ "/" ++ toString d.deal_id,
   "Health: " ++ (healthName d.deal_health).toUpper ++ " | Urgency: " ++ urgencyLabel d.urgency,
   "\nAction:"]
  ++ d.recommended_actions.map (fun a => "  - " ++ a)
  ++ ["\nWhy:"]
  ++ d.reasoning.map (fun r => "  - " ++ r)
  ++ (if d.key_signals.length > 0 then
        ["\nSignals:"] ++ d.key_signals.map (fun s => "  - " ++ s)
      else [])
  ++ (if d.deal_history.length > 0 then
        ["\nDeal History:"] ++ d.deal_history.map (fun e => "  - " ++ e.date ++ ": " ++ e.summary)
      else [])
  ++ ["\n----------------------------------------\n"]

/-- Function `printDealAnalysis` of src/index.ts.  Because `Array.prototype.sort`
mutates its receiver, the function's effect is a pair: the state of the
caller's `result` object after the call (its `deals` array sorted in
place), and the sequence of logged strings.  `domain` is
`env.PIPEDRIVE_DOMAIN`. -/
def printDealAnalysis (domain : String) (result : DealAnalysisResult) :
    DealAnalysisResult × List String :=
  let pipedriveUrl := "https://" ++ domain ++ ".pipedrive.com/deal"
  let sorted := sortDealsByRank result.analysis.deals
  ({ result with analysis := { deals := sorted } },
   ["\n========================================",
    "         DEAL PRIORITIES",
    "    " ++ toString result.dealsAnalyzed ++ " deals analyzed",
    "========================================\n"]
   ++ (sorted.map (renderDeal pipedriveUrl)).flatten)

/-! ## Gmail records and per-deal enrichment (deal-analysis module) -/

/-- One record returned by `searchEmails` in src/services/gmail.ts (every
header lookup defaults to the empty string).  `fromAddr`/`toAddr` embed the
TS fields `from`/`to` (`from` is a Lean keyword). -/
structure EmailRecord where
  fromAddr : String
  toAddr : String
  subject : String
  date : String
  snippet : String
deriving Repr, DecidableEq

/-- The object `{ ...e, contactName: contact.name }` built in `enrichDeal`. -/
structure EmailWithContact extends EmailRecord where
  contactName : String
deriving Repr, DecidableEq

/-- An activity record as read by `enrichDeal` (the three fields its
template interpolates; an absent field renders as "undefined"). -/
structure ActivityRecord where
  type : Option String
  subject : Option String
  due_date : Option String
deriving Repr, DecidableEq

/-- The fields of a Pipedrive `DealItem` the pipeline reads.
`update_time` is modelled as the parsed epoch-millisecond timestamp of the
TS datetime string, absent when the field is undefined. -/
structure DealItem where
  id : Option Int
  title : Option String
  value : Option Int
  currency : Option String
  stage_id : Option Int
  update_time : Option Int
deriving Repr, DecidableEq

/-- JS template interpolation of a possibly-undefined string. -/
def optStr : Option String → String
  | some s => s
  | none => "undefined"

/-- The `.catch(() => d)` pattern: an `Except` collapsed to a default. -/
def exceptD {α : Type} : Except String α → α → α
  | .ok a, _ => a
  | .error _, d => d

/-- The per-deal fetch capabilities `enrichDeal` consumes, as oracles: the
outcome of `getDealContacts(dealId)`, of `getDealActivities(dealId, 5)`, and
of `searchEmails(gmail, email, emailDays, maxEmails)` for each contact
email.  `Except.error` models a rejected promise. -/
structure DealOracle where
  contacts : Except String (List DealContact)
  activities : Except String (List ActivityRecord)
  emails : String → Except String (List EmailRecord)

/-- JS truthiness of `c.email` in `contacts.filter((c) => c.email)`:
null/undefined and the empty string are falsy. -/
def emailTruthy (c : DealContact) : Bool :=
  match c.email with
  | some s => s != ""
  | none => false

/-- The spread `{ ...e, contactName: contact.name }`. -/
def addContactName (n : String) (e : EmailRecord) : EmailWithContact :=
  { toEmailRecord := e, contactName := n }

/-- The stage-name lookup of `enrichDeal`, with the stage map embedded as an
association list: the map is consulted at `deal.stage_id ?? 0`, and the
fallback template interpolates the raw `deal.stage_id`. -/
def stageNameOf (stages : List (Int × String)) (stage_id : Option Int) : String :=
  match (stages.find? (fun p => p.1 == stage_id.getD 0)).map (fun p => p.2) with
  | some n => n
  | none => "Stage " ++ (match stage_id with
    | some s => toString s
    | none => "undefined")

/-- The `daysSinceUpdate` computation of `enrichDeal`:
`Math.floor((Date.now() - parsed)/86_400_000)` when an update time is
present, `-1` otherwise. -/
def daysSinceUpdate (now : Int) : Option Int → Int
  | some t => Int.fdiv (now - t) 86400000
  | none => -1

/-- The flattened `emailResults` of `enrichDeal`: for each contact with a
truthy email, the searched messages tagged with the contact name; a
rejected search is absorbed by the `try/catch` as `[]`. -/
def dealEmails (o : DealOracle) (contacts : List DealContact) : List EmailWithContact :=
  ((contacts.filter emailTruthy).map (fun c =>
    match o.emails (c.email.getD "") with
    | .ok es => es.map (addContactName c.name)
    | .error _ => [])).flatten

/-- The `emailSummary` local of `enrichDeal`. -/
def emailSummaryOf (allEmails : List EmailWithContact) : String :=
  if allEmails.length > 0 then
    String.intercalate "\n" (allEmails.map (fun e =>
      "[" ++ e.date ++ "] " ++ e.fromAddr ++ " -> " ++ e.toAddr ++
      " | Subject: " ++ e.subject ++ " | " ++ e.snippet))
  else "No email communication found."

/-- The `contactsList` local of `enrichDeal` (the JS `|| "None"` catches
exactly the empty join). -/
def contactsListOf (contacts : List DealContact) : String :=
  let s := String.intercalate ", " (contacts.map (fun c =>
    c.name ++ " <" ++ (c.email.getD "no email") ++ ">"))
  if s = "" then "None" else s

/-- The `activityList` local of `enrichDeal`. -/
def activityListOf (activities : List ActivityRecord) : String :=
  if activities.length > 0 then
    String.intercalate "; " (activities.map (fun a =>
      optStr a.type ++ ": " ++ optStr a.subject ++ " (" ++ optStr a.due_date ++ ")"))
  else "None"

/-- The `enrichDeal` template up to and including the line
`Email history (last N days):` with its trailing newline. -/
def enrichContextHead (deal : DealItem) (stages : List (Int × String))
    (contacts : List DealContact) (activities : List ActivityRecord)
    (emailDays : Int) (now : Int) : String :=
  "DEAL #" ++ toString (deal.id.getD 0) ++ ": " ++ optStr deal.title ++ "\n" ++
  "Value: " ++ toString (deal.value.getD 0) ++ " " ++ deal.currency.getD "" ++
  " | Stage: " ++ stageNameOf stages deal.stage_id ++
  " | Days since update: " ++ toString (daysSinceUpdate now deal.update_time) ++ "\n" ++
  "Contacts: " ++ contactsListOf contacts ++ "\n" ++
  "Recent activities: " ++ activityListOf activities ++ "\n" ++
  "Email history (last " ++ toString emailDays ++ " days):\n"

/-- Function `enrichDeal` of the deal-analysis module: the contact and
activity fetch rejections are absorbed by `.catch` into `[]`, per-contact
search rejections by `try/catch` into `[]`, and the bounded textual context
is assembled.  The function is total: no lower-layer failure makes it
reject. -/
def enrichDeal (deal : DealItem) (stages : List (Int × String)) (o : DealOracle)
    (emailDays : Int) (now : Int) : String :=
  let contacts := exceptD o.contacts []
  let activities := exceptD o.activities []
  enrichContextHead deal stages contacts activities emailDays now ++
    emailSummaryOf (dealEmails o contacts) ++ "\n---"

/-- An oracle with every failure already collapsed to the empty list. -/
def normalizeOracle (o : DealOracle) : DealOracle :=
  { contacts := .ok (exceptD o.contacts [])
    activities := .ok (exceptD o.activities [])
    emails := fun e => .ok (exceptD (o.emails e) []) }

/-- The coordinator fan-out, denotationally: deal `j` is enriched against
the per-deal-index oracle `o j`, so failure injection on one index leaves
the oracles of every other index untouched.  (C1 proves the concurrent
coordinator computes exactly this per-index value.) -/
def enrichAllFrom (stages : List (Int × String)) (o : Nat → DealOracle)
    (emailDays : Int) (now : Int) : List DealItem → Nat → List String
  | [], _ => []
  | d :: rest, j =>
    enrichDeal d stages (o j) emailDays now ::
      enrichAllFrom stages o emailDays now rest (j + 1)

/-- All deals enriched, index-aligned with the input list. -/
def enrichAll (deals : List DealItem) (stages : List (Int × String))
    (o : Nat → DealOracle) (emailDays : Int) (now : Int) : List String :=
  enrichAllFrom stages o emailDays now deals 0

/-! ## The pipeline entry point (analyzeDealPipeline) -/

/-- The options object of `analyzeDealPipeline`. -/
structure PipelineOptions where
  limit : Option Nat
  emailDays : Option Int
  maxEmails : Option Nat

/-- The external capabilities `analyzeDealPipeline` consumes:
credential/connectivity validations, the stage map, the open-deal lister
(applied to the resolved limit; the owner id is fixed per run), the
per-deal-index enrichment oracles, and the prioritization engine
(`analyzeDeals` applied to the joined contexts).  `maxEmails` and
`emailDays` are baked into the email oracles; `now` is the wall clock. -/
structure PipelineEnv where
  validateCreds : Except String Unit
  gmailClient : Except String Unit
  validateGmail : Except String Unit
  stages : Except String (List (Int × String))
  openDeals : Nat → Except String (List DealItem)
  dealOracle : Nat → DealOracle
  analyze : String → Except String DealPriority
  now : Int

/-- Function `analyzeDealPipeline` of the deal-analysis module.  The second
component of the result counts invocations of the prioritization engine
(`analyzeDeals`): 0 on the zero-deals early return, 1 on the single call of
the normal path. -/
def analyzeDealPipeline (opts : PipelineOptions) (env : PipelineEnv) :
    Except String (DealAnalysisResult × Nat) := do
  let limit := opts.limit.getD 50
  let emailDays := opts.emailDays.getD 90
  let _ ← env.validateCreds
  let _ ← env.gmailClient
  let _ ← env.validateGmail
  let stages ← env.stages
  let deals ← env.openDeals limit
  if deals.length = 0 then
    return ({ dealsAnalyzed := 0, analysis := { deals := [] } }, 0)
  else
    let contexts := enrichAll deals stages env.dealOracle emailDays env.now
    let analysis ← env.analyze (String.intercalate "\n\n" contexts)
    return ({ dealsAnalyzed := deals.length, analysis := analysis }, 1)

/-! ## JSON payloads and the structured-output schema (src/lib/claude.ts) -/

/-- A JSON value — the shape of the model's tool-use payload.  Numbers are
embedded as integers (every number field of the schema is integral). -/
inductive Json
  | jnull
  | jbool (b : Bool)
  | jnum (n : Int)
  | jstr (s : String)
  | jarr (xs : List Json)
  | jobj (fields : List (String × Json))
deriving Repr

/-- Property lookup on a JS object (first binding wins). -/
def jlookup (fields : List (String × Json)) (k : String) : Option Json :=
  (fields.find? (fun p => p.1 == k)).map (fun p => p.2)

/-- The access `input.deals ?? input` of `analyzeDeals`: on an object, its
`deals` property unless that is null or absent; on an array or a string the
property access yields undefined, so the input itself; on null the access
throws a TypeError (a rejected call). -/
def getDealsField (input : Json) : Except String Json :=
  match input with
  | .jnull => .error "TypeError: Cannot read properties of null"
  | .jobj fs =>
    match jlookup fs "deals" with
    | some .jnull => .ok input
    | some v => .ok v
    | none => .ok input
  | v => .ok v

/-- The listifying step `if (!Array.isArray(deals)) deals = [deals]`. -/
def listify : Json → Json
  | .jarr xs => .jarr xs
  | v => .jarr [v]

/-- The normalization chain of `analyzeDeals` (claude.ts lines 126-133):
unwrap `input.deals ?? input`, `JSON.parse` the value when it is a string
(the parser is the external `JSON.parse`, passed as an oracle; a parse
failure is a thrown error), and listify a non-array.  Returns the value
bound to `deals` at the `DealPrioritySchema.parse({ deals })` call. -/
def normalizeDeals (parse : String → Except String Json) (input : Json) :
    Except String Json := do
  let deals ← getDealsField input
  let deals ← match deals with
    | .jstr s => parse s
    | v => pure v
  pure (listify deals)

/-- Schema check `z.string()`. -/
def asString : Json → Except String String
  | .jstr s => .ok s
  | _ => .error "Expected string"

/-- Schema check `z.number()` (numbers embedded as integers). -/
def asNum : Json → Except String Int
  | .jnum n => .ok n
  | _ => .error "Expected number"

/-- Schema check for a required object field (zod reports absence). -/
def reqField {α : Type} (fs : List (String × Json)) (k : String)
    (f : Json → Except String α) : Except String α :=
  match jlookup fs k with
  | some v => f v
  | none => .error (k ++ ": Required")

/-- Schema check `z.array(z.string())`. -/
def asStringArray : Json → Except String (List String)
  | .jarr xs => xs.mapM asString
  | _ => .error "Expected array"

/-- Schema check for the `deal_health` enum. -/
def parseHealth : Json → Except String DealHealth
  | .jstr "hot" => .ok .hot
  | .jstr "warm" => .ok .warm
  | .jstr "cold" => .ok .cold
  | .jstr "at_risk" => .ok .at_risk
  | _ => .error "Invalid enum value for deal_health"

/-- Schema check for the `urgency` enum. -/
def parseUrgency : Json → Except String Urgency
  | .jstr "immediate" => .ok .immediate
  | .jstr "this_week" => .ok .this_week
  | .jstr "next_week" => .ok .next_week
  | .jstr "no_rush" => .ok .no_rush
  | _ => .error "Invalid enum value for urgency"

/-- Schema check for one `deal_history` element. -/
def parseHistoryEntry : Json → Except String DealHistoryEntry
  | .jobj fs => do
    let d ← reqField fs "date" asString
    let s ← reqField fs "summary" asString
    pure ⟨d, s⟩
  | _ => .error "Expected object"

/-- Schema check for the `deal_history` array. -/
def asHistoryArray : Json → Except String (List DealHistoryEntry)
  | .jarr xs => xs.mapM parseHistoryEntry
  | _ => .error "Expected array"

/-- Schema check for one element of the `deals` array of
`DealPrioritySchema`. -/
def parseEntry : Json → Except String DealPriorityEntry
  | .jobj fs => do
    let did ← reqField fs "deal_id" asNum
    let title ← reqField fs "deal_title" asString
    let rank ← reqField fs "priority_rank" asNum
    let health ← reqField fs "deal_health" parseHealth
    let urg ← reqField fs "urgency" parseUrgency
    let ra ← reqField fs "recommended_actions" asStringArray
    let rs ← reqField fs "reasoning" asStringArray
    let ks ← reqField fs "key_signals" asStringArray
    let dh ← reqField fs "deal_history" asHistoryArray
    pure ⟨did, title, rank, health, urg, ra, rs, ks, dh⟩
  | _ => .error "Expected object"

/-- Function `DealPrioritySchema.parse` of src/lib/claude.ts as a checker:
succeeds exactly on schema-valid payloads, returning the typed result. -/
def parseDealPriority : Json → Except String DealPriority
  | .jobj fs => do
    let ds ← reqField fs "deals" (fun v =>
      match v with
      | .jarr xs => xs.mapM parseEntry
      | _ => .error "deals: Expected array")
    pure ⟨ds⟩
  | _ => .error "Expected object"

/-- A content block of the model response; a tool-use block carries the
structured payload. -/
inductive ContentBlock
  | text (s : String)
  | tool_use (input : Json)

/-- The block search `response.content.find((b) => b.type === "tool_use")`. -/
def findToolUse : List ContentBlock → Option Json
  | [] => none
  | .tool_use j :: _ => some j
  | .text _ :: rest => findToolUse rest

/-- The response handling of `analyzeDeals` (claude.ts lines 121-135): a
missing tool block is a thrown error; otherwise the payload is normalized
and `{ deals }` validated against the schema. -/
def analyzeDeals (parse : String → Except String Json)
    (content : List ContentBlock) : Except String DealPriority := do
  match findToolUse content with
  | none => .error "No structured response from Claude"
  | some input =>
    let deals ← normalizeDeals parse input
    parseDealPriority (.jobj [("deals", deals)])

/-- The rank-density property C5 asserts of every returned result: the
multiset of priority ranks is exactly the dense sequence 1..N. -/
def RanksDense (dp : DealPriority) : Prop :=
  (dp.deals.map (fun d => d.priority_rank)).Perm
    ((List.range dp.deals.length).map (fun i => (i : Int) + 1))

/-- A minimal schema-valid entry carrying a given rank. -/
def mkEntry (r : Int) : DealPriorityEntry :=
  ⟨1, "t", r, .hot, .immediate, [], [], [], []⟩

/-- The JSON form of `mkEntry r`. -/
def mkEntryJson (r : Int) : Json :=
  .jobj [("deal_id", .jnum 1), ("deal_title", .jstr "t"),
         ("priority_rank", .jnum r), ("deal_health", .jstr "hot"),
         ("urgency", .jstr "immediate"), ("recommended_actions", .jarr []),
         ("reasoning", .jarr []), ("key_signals", .jarr []),
         ("deal_history", .jarr [])]

/-- A correctly wrapped payload carrying the given ranks. -/
def payloadWithRanks (rs : List Int) : Json :=
  .jobj [("deals", .jarr (rs.map mkEntryJson))]

/-- A parse oracle that always fails (never consulted on non-string
payloads). -/
def noParse : String → Except String Json :=
  fun _ => .error "Unexpected token"

/-! ## The Concurrency Coordinator (runWithConcurrency) -/

/-- The status of one worker of `runWithConcurrency`: at its loop head
(`ready`), awaiting `fn(items[i])` for a claimed index (`computing i`), or
past its loop (`done`). -/
inductive WorkerStatus
  | ready
  | computing (i : Nat)
  | done
deriving Repr, DecidableEq

/-- The shared state of `runWithConcurrency`: the shared cursor `index`,
the `results` array (`none` marks a slot not yet written), and the worker
pool. -/
structure PoolState (β : Type) where
  idx : Nat
  results : List (Option β)
  workers : List WorkerStatus
deriving Repr

/-- An observable event of one interleaving: worker `w` claims index `i`
(the synchronous `const i = index++`), finishes its await and writes
`results[i]` (`complete`), or observes the exhausted cursor and leaves its
loop (`exit`). -/
inductive PoolLabel
  | claim (w i : Nat)
  | complete (w i : Nat)
  | exit (w : Nat)
deriving Repr, DecidableEq

/-- Small-step semantics of `runWithConcurrency(items, limit, fn)` under an
arbitrary scheduler.  The loop check `index < items.length` and
`const i = index++` happen in one synchronous JS step, so a claim is
atomic; `await fn(items[i])` is the single suspension point, and on
resumption the worker writes its slot and returns to its loop head. -/
inductive PoolStep {α β : Type} (items : List α) (fn : α → β) :
    PoolLabel → PoolState β → PoolState β → Prop
  | claim (s : PoolState β) (w : Nat) (hw : s.workers[w]? = some .ready)
      (hidx : s.idx < items.length) :
      PoolStep items fn (.claim w s.idx) s
        ⟨s.idx + 1, s.results, s.workers.set w (.computing s.idx)⟩
  | complete (s : PoolState β) (w i : Nat)
      (hw : s.workers[w]? = some (.computing i)) :
      PoolStep items fn (.complete w i) s
        ⟨s.idx, s.results.set i ((items[i]?).map fn), s.workers.set w .ready⟩
  | exit (s : PoolState β) (w : Nat) (hw : s.workers[w]? = some .ready)
      (hidx : items.length ≤ s.idx) :
      PoolStep items fn (.exit w) s ⟨s.idx, s.results, s.workers.set w .done⟩

/-- A scheduled run: a sequence of steps together with its event trace. -/
inductive PoolTrace {α β : Type} (items : List α) (fn : α → β) :
    PoolState β → List PoolLabel → PoolState β → Prop
  | nil (s : PoolState β) : PoolTrace items fn s [] s
  | cons (l : PoolLabel) (s s' s'' : PoolState β) (ls : List PoolLabel)
      (hstep : PoolStep items fn l s s')
      (htr : PoolTrace items fn s' ls s'') :
      PoolTrace items fn s (l :: ls) s''

/-- The initial state of `runWithConcurrency(items, limit, fn)`:
`new Array(items.length)` of empty slots, cursor 0, and
`Math.min(limit, items.length)` workers at their loop heads. -/
def initPool {α : Type} (β : Type) (items : List α) (limit : Nat) : PoolState β :=
  ⟨0, List.replicate items.length none, List.replicate (min limit items.length) .ready⟩

/-- The number of enrichment tasks in flight: workers between their claim
and the completion of their await. -/
def inFlight {β : Type} (s : PoolState β) : Nat :=
  s.workers.countP (fun w => match w with | .computing _ => true | _ => false)

/-- The inductive invariant of the coordinator: the cursor never passes the
input length; the results array keeps the input length; the pool keeps its
size; a retired worker certifies an exhausted cursor; claimed indices lie
below the cursor; and every index below the cursor either has its slot
written with its final value or is claimed by some in-flight worker. -/
structure PoolInv {α β : Type} (items : List α) (fn : α → β) (limit : Nat)
    (s : PoolState β) : Prop where
  idx_le : s.idx ≤ items.length
  res_len : s.results.length = items.length
  wk_len : s.workers.length = min limit items.length
  done_idx : (∃ w : Nat, s.workers[w]? = some WorkerStatus.done) → items.length ≤ s.idx
  comp_lt : ∀ (w i : Nat), s.workers[w]? = some (WorkerStatus.computing i) → i < s.idx
  covered : ∀ i : Nat, i < s.idx →
    s.results[i]? = some ((items[i]?).map fn) ∨
    ∃ w : Nat, s.workers[w]? = some (WorkerStatus.computing i)

/-! ## Theorems -/

/-- In a list with no primary entry, `find?` on the primary flag fails. -/
theorem find_primary_eq_none (es : List EmailEntry)
    (h : ∀ e ∈ es, e.primary = false) :
    es.find? (fun e => e.primary) = none := by
  rw [List.find?_eq_none]
  intro e he
  simp [h e he]

/-- In a list whose unique primary entry is `e`, `find?` returns `e`. -/
theorem find_primary_eq_some (es : List EmailEntry) (e : EmailEntry)
    (he : e ∈ es) (hp : e.primary = true)
    (huniq : ∀ e' ∈ es, e'.primary = true → e' = e) :
    es.find? (fun e => e.primary) = some e := by
  induction es with
  | nil => cases he
  | cons a as ih =>
    by_cases ha : a.primary = true
    · have : a = e := huniq a (List.mem_cons_self a as) ha
      subst this
      simp [List.find?, ha]
    · have hne : a ≠ e := fun h => ha (h ▸ hp)
      have he' : e ∈ as := by
        cases List.mem_cons.mp he with
        | inl h => exact absurd h.symm hne
        | inr h => exact h
      have := ih he' (fun e' h' hp' => huniq e' (List.mem_cons_of_mem a h') hp')
      simp only [List.find?]
      rw [Bool.of_not_eq_true ha]
      exact this

/-- C6: for every person record returned by the source, `getDealContacts`
resolves the contact's email as: the value of the email entry whose primary
flag is set, if one exists; otherwise the first listed email's value;
otherwise null. -/
theorem getDealContacts_email_resolution (persons : List PersonRecord)
    (k : Nat) (p : PersonRecord) (hk : persons[k]? = some p) :
    ((getDealContacts persons)[k]? = some (toDealContact p)) ∧
    (∀ e, e ∈ p.emails.getD [] → e.primary = true →
      (∀ e' ∈ p.emails.getD [], e'.primary = true → e' = e) →
      (toDealContact p).email = some e.value) ∧
    ((∀ e ∈ p.emails.getD [], e.primary = false) →
      (toDealContact p).email = ((p.emails.getD []).head?).map (fun e => e.value)) ∧
    (p.emails.getD [] = [] → (toDealContact p).email = none) := by
  refine ⟨?_, ?_, ?_, ?_⟩
  · simp [getDealContacts, List.getElem?_map, hk]
  · intro e he hp huniq
    simp [toDealContact, resolvePersonEmail, find_primary_eq_some _ e he hp huniq]
  · intro hnone
    simp [toDealContact, resolvePersonEmail, find_primary_eq_none _ hnone]
  · intro hempty
    simp [toDealContact, resolvePersonEmail, hempty]

/-- Witness for C6 at a concrete person: a primary entry listed second
wins over the first listed email. -/
theorem getDealContacts_email_resolution_witness :
    ((getDealContacts [⟨some 3, some "Bo", some [⟨"a@x", false⟩, ⟨"b@x", true⟩]⟩])[0]? =
      some (toDealContact ⟨some 3, some "Bo", some [⟨"a@x", false⟩, ⟨"b@x", true⟩]⟩)) ∧
    (toDealContact ⟨some 3, some "Bo", some [⟨"a@x", false⟩, ⟨"b@x", true⟩]⟩).email =
      some "b@x" := by
  have h := getDealContacts_email_resolution
    [⟨some 3, some "Bo", some [⟨"a@x", false⟩, ⟨"b@x", true⟩]⟩] 0
    ⟨some 3, some "Bo", some [⟨"a@x", false⟩, ⟨"b@x", true⟩]⟩ (by rfl)
  refine ⟨h.1, ?_⟩
  have := h.2.1 ⟨"b@x", true⟩ (by decide) (by decide) (by decide)
  simpa using this

/-- C7 fails on the code: `getDealContacts` performs no deduplication, so a
source response containing the same person twice yields the same contact
identity twice. -/
theorem getDealContacts_no_dedup_cex :
    ¬ DedupedByIdentity (getDealContacts [pDup, pDup]) :=
  fun h => absurd (h 7) (by decide)

/-- C7 amended: `getDealContacts` maps each source person record to exactly
one contact, preserving order and multiplicity — duplicate person records in
the source response appear as duplicate contact identities in the output. -/
theorem getDealContacts_maps_one_to_one (persons : List PersonRecord) :
    (getDealContacts persons).length = persons.length ∧
    (getDealContacts persons).map (fun c => c.id) =
      persons.map (fun p => p.id.getD 0) := by
  constructor
  · simp [getDealContacts]
  · simp [getDealContacts, toDealContact]

/-- C10: `printDealAnalysis` sorts `result.analysis.deals` in place by
ascending `priority_rank`: the state of the caller's result object after
the call has its deals array stably sorted into rank order (a permutation
of the input, pairwise ascending), with `dealsAnalyzed` unchanged. -/
theorem printDealAnalysis_sorts_in_place (domain : String) (r : DealAnalysisResult) :
    (printDealAnalysis domain r).1.analysis.deals = sortDealsByRank r.analysis.deals ∧
    ((printDealAnalysis domain r).1.analysis.deals).Perm r.analysis.deals ∧
    List.Pairwise (fun a b => a.priority_rank ≤ b.priority_rank)
      (printDealAnalysis domain r).1.analysis.deals ∧
    (printDealAnalysis domain r).1.dealsAnalyzed = r.dealsAnalyzed := by
  refine ⟨rfl, ?_, ?_, rfl⟩
  · exact List.mergeSort_perm r.analysis.deals rankLe
  · have h := @List.sorted_mergeSort DealPriorityEntry rankLe
      (fun a b c hab hbc => by
        simp only [rankLe, decide_eq_true_eq] at hab hbc ⊢
        exact le_trans hab hbc)
      (fun a b => by
        simp only [rankLe, Bool.or_eq_true, decide_eq_true_eq]
        exact le_total a.priority_rank b.priority_rank)
      r.analysis.deals
    exact h.imp (fun hab => by simpa [rankLe] using hab)

/-- Per-contact search failures are equivalent to empty search results. -/
theorem dealEmails_normalize (o : DealOracle) (contacts : List DealContact) :
    dealEmails (normalizeOracle o) contacts = dealEmails o contacts := by
  unfold dealEmails
  congr 1
  apply List.map_congr_left
  intro c _
  cases h : o.emails (c.email.getD "") with
  | ok es => simp [normalizeOracle, exceptD, h]
  | error e => simp [normalizeOracle, exceptD, h]

/-- Element formula for the fan-out denotation. -/
theorem enrichAllFrom_getElem (stages : List (Int × String)) (o : Nat → DealOracle)
    (emailDays now : Int) (deals : List DealItem) (j0 j : Nat) :
    (enrichAllFrom stages o emailDays now deals j0)[j]? =
      (deals[j]?).map (fun d => enrichDeal d stages (o (j0 + j)) emailDays now) := by
  induction deals generalizing j0 j with
  | nil => simp [enrichAllFrom]
  | cons d rest ih =>
    cases j with
    | zero => simp [enrichAllFrom]
    | succ j' =>
      simp only [enrichAllFrom, List.getElem?_cons_succ]
      rw [ih (j0 + 1) j']
      have : j0 + 1 + j' = j0 + (j' + 1) := by omega
      rw [this]

/-- The fan-out yields one output per input deal. -/
theorem enrichAllFrom_length (stages : List (Int × String)) (o : Nat → DealOracle)
    (emailDays now : Int) (deals : List DealItem) (j0 : Nat) :
    (enrichAllFrom stages o emailDays now deals j0).length = deals.length := by
  induction deals generalizing j0 with
  | nil => rfl
  | cons d rest ih => simp [enrichAllFrom, ih]

/-- C4: a rejection raised by the contact fetch, the activity fetch, or any
per-contact email search is absorbed inside `enrichDeal` — enriching against
a failing oracle equals enriching against the oracle with each failure
replaced by the empty list (so `enrichDeal`, a total function, never
rejects); the fan-out always produces one output per input deal; and the
oracles of index `i` (failing or not) cannot alter the output at any index
`j ≠ i`: the output at `j` depends only on the oracle at `j`. -/
theorem enrichDeal_failure_isolation :
    (∀ deal stages o emailDays now,
      enrichDeal deal stages o emailDays now =
        enrichDeal deal stages (normalizeOracle o) emailDays now) ∧
    (∀ deals stages (o : Nat → DealOracle) emailDays now,
      (enrichAll deals stages o emailDays now).length = deals.length) ∧
    (∀ deals stages (o₁ o₂ : Nat → DealOracle) emailDays now j,
      o₁ j = o₂ j →
      (enrichAll deals stages o₁ emailDays now)[j]? =
        (enrichAll deals stages o₂ emailDays now)[j]?) := by
  refine ⟨?_, ?_, ?_⟩
  · intro deal stages o emailDays now
    simp only [enrichDeal]
    rw [dealEmails_normalize]
    simp [normalizeOracle, exceptD]
  · intro deals stages o emailDays now
    exact enrichAllFrom_length stages o emailDays now deals 0
  · intro deals stages o₁ o₂ emailDays now j h
    unfold enrichAll
    rw [enrichAllFrom_getElem, enrichAllFrom_getElem]
    simp only [Nat.zero_add, h]

/-- Witness for C4 at a concrete deal whose contact fetch and email search
both reject. -/
theorem enrichDeal_failure_isolation_witness :
    (enrichDeal ⟨some 1, some "T", none, none, none, none⟩ []
        ⟨Except.error "net", Except.ok [], fun _ => Except.error "gmail"⟩ 90 0 =
      enrichDeal ⟨some 1, some "T", none, none, none, none⟩ []
        (normalizeOracle ⟨Except.error "net", Except.ok [], fun _ => Except.error "gmail"⟩) 90 0) ∧
    ((enrichAll [⟨some 1, some "T", none, none, none, none⟩] []
        (fun _ => ⟨Except.error "net", Except.ok [], fun _ => Except.error "gmail"⟩) 90 0).length = 1) ∧
    ((enrichAll [⟨some 1, some "T", none, none, none, none⟩] []
        (fun _ => ⟨Except.error "net", Except.ok [], fun _ => Except.error "gmail"⟩) 90 0)[0]? =
      (enrichAll [⟨some 1, some "T", none, none, none, none⟩] []
        (fun _ => ⟨Except.error "net", Except.ok [], fun _ => Except.error "gmail"⟩) 90 0)[0]?) :=
  ⟨enrichDeal_failure_isolation.1 _ _ _ _ _,
   enrichDeal_failure_isolation.2.1 _ _ _ _ _,
   enrichDeal_failure_isolation.2.2 _ _ _ _ _ _ 0 rfl⟩

/-- C8: when the union of per-contact communication lists for a deal is
empty, the built context carries the fixed sentinel text
"No email communication found." in the email-history block (and that
sentinel is not the empty string). -/
theorem enrichDeal_sentinel (deal : DealItem) (stages : List (Int × String))
    (o : DealOracle) (emailDays now : Int)
    (h : dealEmails o (exceptD o.contacts []) = []) :
    enrichDeal deal stages o emailDays now =
      enrichContextHead deal stages (exceptD o.contacts [])
        (exceptD o.activities []) emailDays now ++
        "No email communication found." ++ "\n---" ∧
    emailSummaryOf (dealEmails o (exceptD o.contacts [])) =
      "No email communication found." ∧
    ("No email communication found." : String) ≠ "" := by
  refine ⟨?_, ?_, by decide⟩
  · simp only [enrichDeal]
    rw [h]
    simp [emailSummaryOf]
  · rw [h]
    simp [emailSummaryOf]

/-- Witness for C8: a deal with one contact (with an email address) whose
search returns zero messages. -/
theorem enrichDeal_sentinel_witness :
    enrichDeal ⟨some 2, some "B", none, none, none, none⟩ []
        ⟨Except.ok [⟨5, "Cal", some "cal@x.io"⟩], Except.ok [], fun _ => Except.ok []⟩ 90 0 =
      enrichContextHead ⟨some 2, some "B", none, none, none, none⟩ []
        (exceptD (Except.ok [⟨5, "Cal", some "cal@x.io"⟩]) [])
        (exceptD (Except.ok ([] : List ActivityRecord)) []) 90 0 ++
        "No email communication found." ++ "\n---" :=
  (enrichDeal_sentinel ⟨some 2, some "B", none, none, none, none⟩ []
    ⟨Except.ok [⟨5, "Cal", some "cal@x.io"⟩], Except.ok [], fun _ => Except.ok []⟩ 90 0 rfl).1

/-- C3: when the upstream lister returns zero open deals (and the upfront
credential/stage fetches succeed), `analyzeDealPipeline` returns exactly
`{dealsAnalyzed: 0, analysis: {deals: []}}` with the prioritization engine
invoked zero times. -/
theorem analyzeDealPipeline_zero_deals (opts : PipelineOptions) (env : PipelineEnv)
    (h₁ : env.validateCreds = .ok ()) (h₂ : env.gmailClient = .ok ())
    (h₃ : env.validateGmail = .ok ()) (m : List (Int × String))
    (hs : env.stages = .ok m)
    (hd : env.openDeals (opts.limit.getD 50) = .ok []) :
    analyzeDealPipeline opts env =
      .ok ({ dealsAnalyzed := 0, analysis := { deals := [] } }, 0) := by
  simp [analyzeDealPipeline, h₁, h₂, h₃, hs, hd, bind, Except.bind, pure, Except.pure]

/-- Witness for C3 with an engine oracle that rejects if ever consulted. -/
theorem analyzeDealPipeline_zero_deals_witness :
    analyzeDealPipeline ⟨none, none, none⟩
      ⟨.ok (), .ok (), .ok (), .ok [], fun _ => .ok [],
       fun _ => ⟨.ok [], .ok [], fun _ => .ok []⟩,
       fun _ => .error "engine must not be called", 0⟩ =
      .ok ({ dealsAnalyzed := 0, analysis := { deals := [] } }, 0) :=
  analyzeDealPipeline_zero_deals ⟨none, none, none⟩
    ⟨.ok (), .ok (), .ok (), .ok [], fun _ => .ok [],
     fun _ => ⟨.ok [], .ok [], fun _ => .ok []⟩,
     fun _ => .error "engine must not be called", 0⟩
    rfl rfl rfl [] rfl rfl

/-- Validation of a wrapped payload is the element-wise schema check. -/
theorem parseDealPriority_wrapped (xs : List Json) :
    parseDealPriority (.jobj [("deals", .jarr xs)]) =
      Except.bind (xs.mapM parseEntry) (fun ds => .ok ⟨ds⟩) := rfl

/-- C2: `analyzeDeals` normalizes each malformed payload shape into the
canonical wrapped-object shape before schema validation — a bare array is
wrapped, a JSON-encoded string is parsed and then wrapped (listified if the
parse yields a non-array), and a single object without a `deals` property
is listified and wrapped — and when the normalized value still violates the
schema, the call fails with the validation error instead of returning a
partial result. -/
theorem analyzeDeals_normalizes (parse : String → Except String Json) :
    (∀ content xs, findToolUse content = some (.jarr xs) →
      analyzeDeals parse content = parseDealPriority (.jobj [("deals", .jarr xs)])) ∧
    (∀ content s v, findToolUse content = some (.jstr s) → parse s = .ok v →
      analyzeDeals parse content = parseDealPriority (.jobj [("deals", listify v)])) ∧
    (∀ content fs, findToolUse content = some (.jobj fs) →
      jlookup fs "deals" = none →
      analyzeDeals parse content =
        parseDealPriority (.jobj [("deals", .jarr [.jobj fs])])) ∧
    (∀ content input d e, findToolUse content = some input →
      normalizeDeals parse input = .ok d →
      parseDealPriority (.jobj [("deals", d)]) = .error e →
      analyzeDeals parse content = .error e) := by
  refine ⟨?_, ?_, ?_, ?_⟩
  · intro content xs h
    simp [analyzeDeals, h, normalizeDeals, getDealsField, listify, bind,
      Except.bind, pure, Except.pure]
  · intro content s v h hp
    simp [analyzeDeals, h, normalizeDeals, getDealsField, hp, bind,
      Except.bind, pure, Except.pure]
  · intro content fs h hl
    simp [analyzeDeals, h, normalizeDeals, getDealsField, hl, listify, bind,
      Except.bind, pure, Except.pure]
  · intro content input d e h hn hv
    simp [analyzeDeals, h, hn, hv, bind, Except.bind]

/-- Witness for C2: a bare-array payload carrying one valid entry is
normalized and validates to the typed result. -/
theorem analyzeDeals_normalizes_witness :
    analyzeDeals noParse [ContentBlock.tool_use (.jarr [mkEntryJson 1])] =
      parseDealPriority (.jobj [("deals", .jarr [mkEntryJson 1])]) ∧
    parseDealPriority (.jobj [("deals", .jarr [mkEntryJson 1])]) =
      .ok ⟨[mkEntry 1]⟩ :=
  ⟨(analyzeDeals_normalizes noParse).1 _ _ rfl, rfl⟩

/-- Each generated entry validates to its typed form. -/
theorem mapM_parseEntry_mkEntryJson (rs : List Int) :
    (rs.map mkEntryJson).mapM parseEntry = Except.ok (rs.map mkEntry) := by
  induction rs with
  | nil => rfl
  | cons r rest ih =>
    rw [List.map_cons, List.map_cons, List.mapM_cons]
    have h1 : parseEntry (mkEntryJson r) = Except.ok (mkEntry r) := rfl
    rw [h1, ih]
    rfl

/-- C5 fails on the code: the engine performs no rank-density check, so a
model payload whose two entries both carry rank 1 is returned as-is, with
ranks that are not the dense sequence 1..2. -/
theorem analyzeDeals_rank_density_cex :
    analyzeDeals noParse [ContentBlock.tool_use (payloadWithRanks [1, 1])] =
      .ok ⟨[mkEntry 1, mkEntry 1]⟩ ∧
    ¬ RanksDense ⟨[mkEntry 1, mkEntry 1]⟩ := by
  constructor
  · rfl
  · simp only [RanksDense]
    decide

/-- C5 amended: the schema requires `priority_rank` to be a number but the
engine enforces no uniqueness or density — for any list of integers
whatsoever, a schema-valid payload carrying exactly those ranks is accepted
and returned unchanged. -/
theorem analyzeDeals_rank_unconstrained (rs : List Int) :
    analyzeDeals noParse [ContentBlock.tool_use (payloadWithRanks rs)] =
      .ok ⟨rs.map mkEntry⟩ ∧
    (rs.map mkEntry).map (fun d => d.priority_rank) = rs := by
  constructor
  · have hn : analyzeDeals noParse [ContentBlock.tool_use (payloadWithRanks rs)] =
        parseDealPriority (.jobj [("deals", .jarr (rs.map mkEntryJson))]) := by
      simp [analyzeDeals, findToolUse, normalizeDeals, getDealsField,
        payloadWithRanks, jlookup, List.find?, listify, bind, Except.bind,
        pure, Except.pure]
    rw [hn, parseDealPriority_wrapped, mapM_parseEntry_mkEntryJson]
    rfl
  · simp only [List.map_map]
    have h : ((fun d => d.priority_rank) ∘ mkEntry) = id := by
      funext r
      rfl
    rw [h, List.map_id]

/-- The invariant holds at the initial state. -/
theorem poolInv_init {α β : Type} (items : List α) (fn : α → β) (limit : Nat) :
    PoolInv items fn limit (initPool β items limit) := by
  constructor
  · exact Nat.zero_le _
  · simp [initPool]
  · simp [initPool]
  · rintro ⟨w, hw⟩
    simp [initPool, List.getElem?_replicate] at hw
  · intro w i hw
    simp [initPool, List.getElem?_replicate] at hw
  · intro i hi
    simp [initPool] at hi

/-- Each coordinator step preserves the invariant. -/
theorem poolInv_step {α β : Type} {items : List α} {fn : α → β} {limit : Nat}
    {l : PoolLabel} {s s' : PoolState β}
    (hstep : PoolStep items fn l s s') (hinv : PoolInv items fn limit s) :
    PoolInv items fn limit s' := by
  cases hstep with
  | claim s w hw hidx =>
    obtain ⟨hwlt, -⟩ := List.getElem?_eq_some.mp hw
    constructor
    · exact hidx
    · exact hinv.res_len
    · rw [List.length_set]; exact hinv.wk_len
    · rintro ⟨w', hw'⟩
      by_cases hww : w = w'
      · subst hww
        rw [List.getElem?_set_self hwlt] at hw'
        simp at hw'
      · rw [List.getElem?_set_ne hww] at hw'
        exact le_trans (hinv.done_idx ⟨w', hw'⟩) (Nat.le_succ _)
    · intro w' i hw'
      by_cases hww : w = w'
      · subst hww
        rw [List.getElem?_set_self hwlt] at hw'
        simp at hw'
        show i < s.idx + 1
        omega
      · rw [List.getElem?_set_ne hww] at hw'
        exact Nat.lt_succ_of_lt (hinv.comp_lt w' i hw')
    · intro i hi
      rcases Nat.lt_succ_iff_lt_or_eq.mp hi with hlt | heq
      · rcases hinv.covered i hlt with hres | ⟨w₀, hw₀⟩
        · exact Or.inl hres
        · right
          have hww : w ≠ w₀ := by
            intro h
            subst h
            rw [hw] at hw₀
            simp at hw₀
          exact ⟨w₀, by rw [List.getElem?_set_ne hww]; exact hw₀⟩
      · subst heq
        right
        exact ⟨w, List.getElem?_set_self hwlt⟩
  | complete s w i hw =>
    obtain ⟨hwlt, -⟩ := List.getElem?_eq_some.mp hw
    have hilt : i < items.length := lt_of_lt_of_le (hinv.comp_lt w i hw) hinv.idx_le
    have hires : i < s.results.length := by rw [hinv.res_len]; exact hilt
    constructor
    · exact hinv.idx_le
    · rw [List.length_set]; exact hinv.res_len
    · rw [List.length_set]; exact hinv.wk_len
    · rintro ⟨w', hw'⟩
      by_cases hww : w = w'
      · subst hww
        rw [List.getElem?_set_self hwlt] at hw'
        simp at hw'
      · rw [List.getElem?_set_ne hww] at hw'
        exact hinv.done_idx ⟨w', hw'⟩
    · intro w' i' hw'
      by_cases hww : w = w'
      · subst hww
        rw [List.getElem?_set_self hwlt] at hw'
        simp at hw'
      · rw [List.getElem?_set_ne hww] at hw'
        exact hinv.comp_lt w' i' hw'
    · intro i' hi'
      by_cases hii : i' = i
      · subst hii
        exact Or.inl (List.getElem?_set_self hires)
      · rcases hinv.covered i' hi' with hres | ⟨w₀, hw₀⟩
        · left
          rw [List.getElem?_set_ne (fun h => hii h.symm)]
          exact hres
        · by_cases hww : w = w₀
          · subst hww
            rw [hw] at hw₀
            simp at hw₀
            exact absurd hw₀.symm hii
          · right
            exact ⟨w₀, by rw [List.getElem?_set_ne hww]; exact hw₀⟩
  | exit s w hw hidx =>
    obtain ⟨hwlt, -⟩ := List.getElem?_eq_some.mp hw
    constructor
    · exact hinv.idx_le
    · exact hinv.res_len
    · rw [List.length_set]; exact hinv.wk_len
    · intro _
      exact hidx
    · intro w' i' hw'
      by_cases hww : w = w'
      · subst hww
        rw [List.getElem?_set_self hwlt] at hw'
        simp at hw'
      · rw [List.getElem?_set_ne hww] at hw'
        exact hinv.comp_lt w' i' hw'
    · intro i' hi'
      rcases hinv.covered i' hi' with hres | ⟨w₀, hw₀⟩
      · exact Or.inl hres
      · have hww : w ≠ w₀ := by
          intro h
          subst h
          rw [hw] at hw₀
          simp at hw₀
        right
        exact ⟨w₀, by rw [List.getElem?_set_ne hww]; exact hw₀⟩

/-- The invariant holds at every reachable state. -/
theorem poolTrace_inv {α β : Type} {items : List α} {fn : α → β} {limit : Nat}
    {s : PoolState β} {ls : List PoolLabel} {s' : PoolState β}
    (htr : PoolTrace items fn s ls s') :
    PoolInv items fn limit s → PoolInv items fn limit s' := by
  induction htr with
  | nil s => exact id
  | cons l s t s'' ls hstep htr ih => exact fun hinv => ih (poolInv_step hstep hinv)

/-- C1: for every list of items and concurrency limit ≥ 1, any completed
schedule of `runWithConcurrency(items, limit, fn)` — every worker past its
loop — leaves the results array with exactly one output per input item,
the output at index `i` being `fn` of the input at index `i`, regardless
of the order in which the awaited computations completed. -/
theorem runWithConcurrency_order {α β : Type} (items : List α) (fn : α → β)
    (limit : Nat) (hk : 1 ≤ limit) (ls : List PoolLabel) (s : PoolState β)
    (htr : PoolTrace items fn (initPool β items limit) ls s)
    (hdone : ∀ w ∈ s.workers, w = WorkerStatus.done) :
    s.results.length = items.length ∧
    ∀ (i : Nat) (hi : i < items.length),
      s.results[i]? = some (some (fn (items.get ⟨i, hi⟩))) := by
  have hinv := poolTrace_inv htr (poolInv_init items fn limit)
  refine ⟨hinv.res_len, ?_⟩
  intro i hi
  have hlenpos : 0 < items.length := lt_of_le_of_lt (Nat.zero_le i) hi
  have hwpos : 0 < s.workers.length := by
    rw [hinv.wk_len]
    omega
  have hd : s.workers[0]? = some WorkerStatus.done := by
    have h0 := List.getElem?_eq_getElem hwpos
    have hde := hdone _ (List.getElem_mem hwpos)
    rw [h0, hde]
  have hidx : items.length ≤ s.idx := hinv.done_idx ⟨0, hd⟩
  rcases hinv.covered i (lt_of_lt_of_le hi hidx) with hres | ⟨w, hw⟩
  · rw [hres, List.getElem?_eq_getElem hi]
    rfl
  · have := hdone _ (List.getElem?_mem hw)
    simp at this

/-- A trace over a concatenation splits at the boundary. -/
theorem poolTrace_append {α β : Type} {items : List α} {fn : α → β}
    {s : PoolState β} {a b : List PoolLabel} {s'' : PoolState β}
    (htr : PoolTrace items fn s (a ++ b) s'') :
    ∃ smid, PoolTrace items fn s a smid ∧ PoolTrace items fn smid b s'' := by
  induction a generalizing s with
  | nil => exact ⟨s, PoolTrace.nil s, htr⟩
  | cons l a ih =>
    cases htr with
    | cons _ _ t _ _ hstep htr' =>
      obtain ⟨smid, h1, h2⟩ := ih htr'
      exact ⟨smid, PoolTrace.cons l s t smid a hstep h1, h2⟩

/-- A worker holding a claimed index must complete it before it is back at
its loop head: its trace segment carries a completion event of that
worker. -/
theorem computing_to_ready_has_complete {α β : Type} {items : List α}
    {fn : α → β} {s s' : PoolState β} {b : List PoolLabel} {w i : Nat}
    (htr : PoolTrace items fn s b s') :
    s'.workers[w]? = some WorkerStatus.ready →
    s.workers[w]? = some (WorkerStatus.computing i) →
    ∃ i' : Nat, PoolLabel.complete w i' ∈ b := by
  induction htr with
  | nil t =>
    intro hr hc
    rw [hc] at hr
    simp at hr
  | cons l t t' t'' ls hstep htr ih =>
    intro hr hc
    cases hstep with
    | claim _ w₀ hw₀ hidx =>
      by_cases hww : w₀ = w
      · subst hww
        rw [hc] at hw₀
        simp at hw₀
      · obtain ⟨i', hmem⟩ := ih hr (by rw [List.getElem?_set_ne hww]; exact hc)
        exact ⟨i', List.mem_cons_of_mem _ hmem⟩
    | complete _ w₀ i₀ hw₀ =>
      by_cases hww : w₀ = w
      · subst hww
        exact ⟨i₀, List.mem_cons_self _ _⟩
      · obtain ⟨i', hmem⟩ := ih hr (by rw [List.getElem?_set_ne hww]; exact hc)
        exact ⟨i', List.mem_cons_of_mem _ hmem⟩
    | exit _ w₀ hw₀ hidx =>
      by_cases hww : w₀ = w
      · subst hww
        rw [hc] at hw₀
        simp at hw₀
      · obtain ⟨i', hmem⟩ := ih hr (by rw [List.getElem?_set_ne hww]; exact hc)
        exact ⟨i', List.mem_cons_of_mem _ hmem⟩

/-- C9: (a) at every state reachable along any schedule of
`runWithConcurrency(items, limit, fn)`, at most `limit` enrichment tasks
are in flight at the coordinator level; (b) each worker processes its
claimed index to completion before claiming the next unclaimed index from
the shared cursor: between two claim events of the same worker, the trace
carries a completion event of that worker. -/
theorem runWithConcurrency_bound {α β : Type} (items : List α) (fn : α → β)
    (limit : Nat) :
    (∀ (ls : List PoolLabel) (s : PoolState β),
      PoolTrace items fn (initPool β items limit) ls s → inFlight s ≤ limit) ∧
    (∀ (ls : List PoolLabel) (s : PoolState β) (a b c : List PoolLabel)
      (w i j : Nat),
      PoolTrace items fn (initPool β items limit) ls s →
      ls = a ++ PoolLabel.claim w i :: (b ++ PoolLabel.claim w j :: c) →
      ∃ i' : Nat, PoolLabel.complete w i' ∈ b) := by
  constructor
  · intro ls s htr
    have hinv := poolTrace_inv htr (poolInv_init items fn limit)
    calc inFlight s ≤ s.workers.length := List.countP_le_length _
      _ = min limit items.length := hinv.wk_len
      _ ≤ limit := min_le_left _ _
  · intro ls s a b c w i j htr hls
    subst hls
    obtain ⟨s₁, h₁, h₂⟩ := poolTrace_append htr
    cases h₂ with
    | cons _ _ s₂ _ _ hstep htr₂ =>
      cases hstep with
      | claim _ _ hw hidx =>
        obtain ⟨hwlt, -⟩ := List.getElem?_eq_some.mp hw
        have hc : (s₁.workers.set w (WorkerStatus.computing s₁.idx))[w]? =
            some (WorkerStatus.computing s₁.idx) := List.getElem?_set_self hwlt
        obtain ⟨s₃, h₃, h₄⟩ := poolTrace_append htr₂
        cases h₄ with
        | cons _ _ s₄ _ _ hstep₂ htr₄ =>
          cases hstep₂ with
          | claim _ _ hw₂ hidx₂ =>
            exact computing_to_ready_has_complete h₃ hw₂ hc

/-- A concrete completed schedule: two items, one worker, doubling. -/
theorem poolTraceExample :
    PoolTrace [10, 20] (fun n => n * 2) (initPool Nat [10, 20] 1)
      [PoolLabel.claim 0 0, PoolLabel.complete 0 0, PoolLabel.claim 0 1,
       PoolLabel.complete 0 1, PoolLabel.exit 0]
      ⟨2, [some 20, some 40], [WorkerStatus.done]⟩ := by
  refine PoolTrace.cons _ _ _ _ _
    (PoolStep.claim (initPool Nat [10, 20] 1) 0 rfl (by decide)) ?_
  refine PoolTrace.cons _ _ _ _ _
    (PoolStep.complete ⟨1, [none, none], [WorkerStatus.computing 0]⟩ 0 0 rfl) ?_
  refine PoolTrace.cons _ _ _ _ _
    (PoolStep.claim ⟨1, [some 20, none], [WorkerStatus.ready]⟩ 0 rfl (by decide)) ?_
  refine PoolTrace.cons _ _ _ _ _
    (PoolStep.complete ⟨2, [some 20, none], [WorkerStatus.computing 1]⟩ 0 1 rfl) ?_
  refine PoolTrace.cons _ _ _ _ _
    (PoolStep.exit ⟨2, [some 20, some 40], [WorkerStatus.ready]⟩ 0 rfl (by decide)) ?_
  exact PoolTrace.nil _

/-- Witness for C1: the concrete schedule fills both slots in input order. -/
theorem runWithConcurrency_order_witness :
    (⟨2, [some 20, some 40], [WorkerStatus.done]⟩ : PoolState Nat).results.length =
      ([10, 20] : List Nat).length ∧
    ∀ (i : Nat) (hi : i < ([10, 20] : List Nat).length),
      (⟨2, [some 20, some 40], [WorkerStatus.done]⟩ : PoolState Nat).results[i]? =
        some (some ((([10, 20] : List Nat).get ⟨i, hi⟩) * 2)) :=
  runWithConcurrency_order [10, 20] (fun n => n * 2) 1 (by decide) _ _
    poolTraceExample (by decide)

/-- Witness for C9: on the concrete schedule the in-flight bound holds at
the final state, and the segment between the worker's two claims carries
its completion event. -/
theorem runWithConcurrency_bound_witness :
    inFlight (⟨2, [some 20, some 40], [WorkerStatus.done]⟩ : PoolState Nat) ≤ 1 ∧
    ∃ i' : Nat, PoolLabel.complete 0 i' ∈ [PoolLabel.complete 0 0] :=
  ⟨(runWithConcurrency_bound [10, 20] (fun n => n * 2) 1).1 _ _ poolTraceExample,
   (runWithConcurrency_bound [10, 20] (fun n => n * 2) 1).2 _ _
     [] [PoolLabel.complete 0 0] [PoolLabel.complete 0 1, PoolLabel.exit 0]
     0 0 1 poolTraceExample rfl⟩
